import Mathlib

/-!
Verification of the module-location resolver and content-addressed
compilation cache implemented in `src/deno_dir.rs`.

Strings are modelled by Lean `String`; filesystem paths by POSIX-style
strings manipulated at the character-list level, mirroring the semantics
of Rust's `std::path` operations used by the source.  The filesystem and
the network are modelled as explicit maps threaded through the
operations.  Fallible operations return an `Outcome`, whose `panic`
constructor records a Rust `panic!`/failed `assert!`/`unwrap` (process
abort) as distinct from an error returned to the caller.
-/

/-! ## Bytes of a string (UTF-8), as in Rust `str::as_bytes` -/

/-- UTF-8 encoding of a single Unicode code point, as a list of bytes. -/
def utf8EncodeCp (n : Nat) : List Nat :=
  if n < 0x80 then [n]
  else if n < 0x800 then
    [0xC0 ||| (n >>> 6), 0x80 ||| (n &&& 0x3F)]
  else if n < 0x10000 then
    [0xE0 ||| (n >>> 12), 0x80 ||| ((n >>> 6) &&& 0x3F), 0x80 ||| (n &&& 0x3F)]
  else
    [0xF0 ||| (n >>> 18), 0x80 ||| ((n >>> 12) &&& 0x3F),
     0x80 ||| ((n >>> 6) &&& 0x3F), 0x80 ||| (n &&& 0x3F)]

/-- The UTF-8 bytes of a string (Rust `str::as_bytes`). -/
def strBytes (s : String) : List Nat :=
  (s.data.map Char.toNat).flatMap utf8EncodeCp

/-! ## SHA-1 (the `ring::digest::SHA1` algorithm used by `source_code_hash`) -/

/-- Rotate a 32-bit word left by `k` bits. -/
def rotl (k w : Nat) : Nat :=
  ((w <<< k) ||| (w >>> (32 - k))) % 4294967296

/-- The `j`-th big-endian 32-bit word of a 64-byte block. -/
def wordAt (block : List Nat) (j : Nat) : Nat :=
  block.getD (4*j) 0 * 16777216 + block.getD (4*j+1) 0 * 65536 +
  block.getD (4*j+2) 0 * 256 + block.getD (4*j+3) 0

/-- Big-endian bytes of a 32-bit word. -/
def wordBytes (w : Nat) : List Nat :=
  [w / 16777216 % 256, w / 65536 % 256, w / 256 % 256, w % 256]

/-- Big-endian 8-byte encoding of the message bit length. -/
def lenBytes (n : Nat) : List Nat :=
  [n >>> 56 % 256, n >>> 48 % 256, n >>> 40 % 256, n >>> 32 % 256,
   n >>> 24 % 256, n >>> 16 % 256, n >>> 8 % 256, n % 256]

/-- One step of the SHA-1 message-schedule expansion. -/
def sha1Expand (acc : List Nat) (_i : Nat) : List Nat :=
  let n := acc.length
  acc ++ [rotl 1 (((acc.getD (n-3) 0) ^^^ (acc.getD (n-8) 0)) ^^^
                  ((acc.getD (n-14) 0) ^^^ (acc.getD (n-16) 0)))]

/-- One SHA-1 round: state update for round index `i` with schedule word `w`. -/
def sha1Round (st : Nat × Nat × Nat × Nat × Nat) (iw : Nat × Nat) :
    Nat × Nat × Nat × Nat × Nat :=
  let (a, b, c, d, e) := st
  let (i, w) := iw
  let f :=
    if i < 20 then (b &&& c) ||| ((b ^^^ 0xFFFFFFFF) &&& d)
    else if i < 40 then (b ^^^ c) ^^^ d
    else if i < 60 then ((b &&& c) ||| (b &&& d)) ||| (c &&& d)
    else (b ^^^ c) ^^^ d
  let k :=
    if i < 20 then 0x5A827999
    else if i < 40 then 0x6ED9EBA1
    else if i < 60 then 0x8F1BBCDC
    else 0xCA62C1D6
  let temp := (rotl 5 a + f + e + k + w) % 4294967296
  (temp, a, rotl 30 b, c, d)

/-- SHA-1 compression of a single 64-byte block into the running state. -/
def sha1Block (h : Nat × Nat × Nat × Nat × Nat) (block : List Nat) :
    Nat × Nat × Nat × Nat × Nat :=
  let w0 := (List.range 16).map (wordAt block)
  let ws := (List.range 64).foldl sha1Expand w0
  let (h0, h1, h2, h3, h4) := h
  let (a, b, c, d, e) := ws.enum.foldl sha1Round h
  ((a + h0) % 4294967296, (b + h1) % 4294967296, (c + h2) % 4294967296,
   (d + h3) % 4294967296, (e + h4) % 4294967296)

/-- SHA-1 padding: append 0x80, zeros to 56 mod 64, then the bit length. -/
def sha1Pad (msg : List Nat) : List Nat :=
  msg ++ 0x80 :: (List.replicate ((119 - msg.length % 64) % 64) 0 ++
    lenBytes (8 * msg.length))

/-- The 20-byte SHA-1 digest of a byte list. -/
def sha1 (msg : List Nat) : List Nat :=
  let padded := sha1Pad msg
  let hs := (List.range (padded.length / 64)).foldl
    (fun h i => sha1Block h ((padded.drop (64*i)).take 64))
    (0x67452301, 0xEFCDAB89, 0x98BADCFE, 0x10325476, 0xC3D2E1F0)
  wordBytes hs.1 ++ wordBytes hs.2.1 ++ wordBytes hs.2.2.1 ++
    wordBytes hs.2.2.2.1 ++ wordBytes hs.2.2.2.2

/-! ## Hex encoding (`write!("{:02x}", byte)` in the source) -/

/-- Lowercase hexadecimal digit for a value below 16. -/
def hexChar (n : Nat) : Char :=
  if n < 10 then Char.ofNat (48 + n) else Char.ofNat (87 + n)

/-- The two lowercase hex characters of one byte (`{:02x}` formatting). -/
def byteHexChars (b : Nat) : List Char :=
  [hexChar (b / 16), hexChar (b % 16)]

/-- Lowercase hex string of a byte list. -/
def bytesToHex (bs : List Nat) : String :=
  ⟨bs.flatMap byteHexChars⟩

/-- `source_code_hash` from `deno_dir.rs`: SHA-1 over the filename bytes
followed by the source bytes, lowercase hex encoded. -/
def source_code_hash (filename source_code : String) : String :=
  bytesToHex (sha1 (strBytes filename ++ strBytes source_code))

/-! ## POSIX path model (the `std::path` operations used by the source) -/

/-- Rust `str::starts_with`, at the character-list level. -/
def hasPre : List Char → List Char → Bool
  | [], _ => true
  | _ :: _, [] => false
  | a :: as, b :: bs => a == b && hasPre as bs

/-- Rust `str::starts_with` on strings: does `pre` begin `s`? -/
def strHasPre (s pre : String) : Bool := hasPre pre.data s.data

/-- Split a character list at every slash (keeping empty pieces). -/
def splitSlash : List Char → List (List Char)
  | [] => [[]]
  | c :: cs =>
    match splitSlash cs with
    | [] => [[]]
    | p :: ps => if c = '/' then [] :: p :: ps else (c :: p) :: ps

/-- Join pieces with single slashes. -/
def joinSlash : List (List Char) → List Char
  | [] => []
  | [p] => p
  | p :: ps => p ++ '/' :: joinSlash ps

/-- Drop trailing slashes. -/
def stripSlashesEnd (l : List Char) : List Char :=
  (l.reverse.dropWhile (fun c => c == '/')).reverse

/-- Rust `Path::parent` on POSIX: the path without its final component;
`none` for the root and for the empty path. -/
def parentPath (s : String) : Option String :=
  let t := stripSlashesEnd s.data
  if t.isEmpty then none
  else
    let r := t.reverse
    let rest := r.dropWhile (fun c => c != '/')
    if rest.isEmpty then some ⟨[]⟩
    else
      let pr := rest.dropWhile (fun c => c == '/')
      if pr.isEmpty then some ⟨['/']⟩ else some ⟨pr.reverse⟩

/-- Rust `Path::join`/`PathBuf::push` on POSIX: an absolute right operand
replaces the base; otherwise the operand is appended with a separator
inserted when the base does not already end in one. -/
def pushPath (base p : String) : String :=
  if p.data.head? = some '/' then p
  else if base.data.isEmpty then p
  else if base.data.getLast? = some '/' then ⟨base.data ++ p.data⟩
  else ⟨base.data ++ '/' :: p.data⟩

/-- Rust `Path::components` on POSIX, summarised as
(has a root, keeps a leading `.` component, the remaining components).
Empty components and non-leading `.` components are dropped. -/
def pathComps (s : String) : Bool × Bool × List (List Char) :=
  let cs := s.data
  let root := cs.head? == some '/'
  let raw := splitSlash cs
  let dot := !root && (raw.head? == some ['.'])
  (root, dot, raw.filter (fun p => !p.isEmpty && p != ['.']))

/-- Drop the trailing pieces that Rust's `Components` back-trimming
removes: empty components and `.` components, from the right, stopping at
the first real component. -/
def dropTrailingDots : List (List Char) → List (List Char)
  | [] => []
  | p :: ps =>
    match dropTrailingDots ps with
    | [] => if p.isEmpty || p == ['.'] then [] else [p]
    | q :: qs => p :: q :: qs

/-- Rust `path.components().as_path()` as used in `resolve_module`: a
subslice of the original text in which only trailing empty and `.`
components are trimmed (the root slash, and a leading `.` component, are
kept).  The leading text is returned verbatim — interior `//` and `./`
are NOT rewritten, so e.g. `/./a` and `a//b` come back unchanged while
`a/b/`, `a/b//` and `a/b/.` become `a/b`. -/
def componentsAsPath (s : String) : String :=
  match s.data with
  | [] => ⟨[]⟩
  | c :: rest =>
    if c = '/' then ⟨'/' :: joinSlash (dropTrailingDots (splitSlash rest))⟩
    else if c = '.' && (rest.isEmpty || rest.head? == some '/') then
      ⟨'.' :: joinSlash (dropTrailingDots (splitSlash rest))⟩
    else ⟨joinSlash (dropTrailingDots (splitSlash (c :: rest)))⟩

/-- Rust `Path::is_absolute` on POSIX. -/
def isAbsolutePath (s : String) : Bool := s.data.head? == some '/'

/-- Rust `PathBuf` equality (`PartialEq`), which compares component
sequences, not raw text. -/
def pathEq (a b : String) : Prop := pathComps a = pathComps b

/-! ## URI model (the `hyper::Uri` behaviour the source relies on) -/

/-- A parsed URI with an explicit scheme, as produced by `hyper::Uri` for
`scheme://host[:port]/path` forms.  Query separation is not modelled; the
trailing part is kept verbatim in `pathRaw`. -/
structure Uri where
  scheme : String
  host : String
  port : Option String
  pathRaw : String
deriving DecidableEq, Repr

/-- `hyper::Uri::path`: the path, `"/"` when the URI has none. -/
def Uri.path (u : Uri) : String :=
  if u.pathRaw.data.isEmpty then ⟨['/']⟩ else u.pathRaw

/-- `hyper::Uri::to_string`: scheme, authority (host with the port when
present) and the path, reassembled verbatim. -/
def uriToStr (u : Uri) : String :=
  ⟨u.scheme.data ++ ':' :: '/' :: '/' :: u.host.data ++
    (match u.port with | none => [] | some p => ':' :: p.data) ++
    u.pathRaw.data⟩

/-- Locate the first `://` in a character list, returning the part before
it and the part after it. -/
def splitScheme : List Char → Option (List Char × List Char)
  | [] => none
  | c :: rest =>
    if c = ':' && hasPre ['/', '/'] rest then some ([], rest.drop 2)
    else (splitScheme rest).map (fun pr => (c :: pr.1, pr.2))

/-- Characters allowed after the first character of a URI scheme. -/
def isSchemeChar (c : Char) : Bool :=
  c.isAlpha || c.isDigit || c == '+' || c == '-' || c == '.'

/-- A URI scheme: nonempty, letter first, then scheme characters. -/
def schemeOk : List Char → Bool
  | [] => false
  | c :: rest => c.isAlpha && rest.all isSchemeChar

/-- A URI host: nonempty and free of separators and userinfo markers. -/
def hostOk (h : List Char) : Bool :=
  !h.isEmpty && h.all (fun c => c != '/' && c != ':' && c != '@')

/-- A URI port: nonempty digits. -/
def digitsOk (l : List Char) : Bool := !l.isEmpty && l.all Char.isDigit

/-- The raw path part: empty or beginning with a slash. -/
def pathRawOk (p : List Char) : Bool := p.isEmpty || (p.head? == some '/')

/-- Assemble a URI from its validated pieces; the port part, produced by
dropping up to the first `:` of the authority, carries that `:` as its
head when nonempty. -/
def mkUri (sch host portPart pathRaw : List Char) : Option Uri :=
  if schemeOk sch && hostOk host && pathRawOk pathRaw then
    match portPart with
    | [] => some ⟨⟨sch⟩, ⟨host⟩, none, ⟨pathRaw⟩⟩
    | _ :: pd =>
      if digitsOk pd then some ⟨⟨sch⟩, ⟨host⟩, some ⟨pd⟩, ⟨pathRaw⟩⟩
      else none
  else none

/-- `module_specifier.parse::<Uri>()` restricted to what the source needs:
`some` exactly when the specifier is a well-formed `scheme://host[:port]…`
URI (a URI with an explicit scheme); every other specifier — relative
paths, absolute paths, bare names — yields `none`, matching the
`is_remote_url` test in `resolve_module` (parse error, or parse without a
scheme part). -/
def parseUri (s : String) : Option Uri :=
  match splitScheme s.data with
  | none => none
  | some (sch, rest) =>
    let auth := rest.takeWhile (fun c => c != '/')
    mkUri sch (auth.takeWhile (fun c => c != ':'))
      (auth.dropWhile (fun c => c != ':'))
      (rest.dropWhile (fun c => c != '/'))

/-! ## Locations, errors, filesystem and network models -/

/-- `ModuleLocation` from `deno_dir.rs`. -/
inductive ModuleLocation where
  | Path (p : String)
  | Url (u : Uri)
deriving DecidableEq, Repr

/-- `ModuleLocation::to_string`: the path text, or the URI reassembled. -/
def ModuleLocation.toStr : ModuleLocation → String
  | .Path p => p
  | .Url u => uriToStr u

/-- The two `std::io::ErrorKind` classes the source distinguishes. -/
inductive ErrKind where
  | notFound
  | otherKind
deriving DecidableEq, Repr

/-- `DenoError`: an I/O error carried over (`err.into()`), or a network
fetch failure. -/
inductive DenoError where
  | ioErr (k : ErrKind)
  | fetchErr
deriving DecidableEq, Repr

/-- State of one path in the modelled filesystem: present with content,
absent, or faulty (reads fail with a non-`NotFound` I/O error). -/
inductive FileRes where
  | found (content : String)
  | absent
  | faulty
deriving DecidableEq, Repr

/-- The filesystem: a map from path text to file state. -/
abbrev FS := String → FileRes

/-- `fs::read_to_string`. -/
def readToString (fs : FS) (p : String) : Except ErrKind String :=
  match fs p with
  | .found c => .ok c
  | .absent => .error .notFound
  | .faulty => .error .otherKind

/-- Rust `Path::exists` (false on stat failure). -/
def fileExists (fs : FS) (p : String) : Bool :=
  match fs p with
  | .found _ => true
  | _ => false

/-- `fs::write` / `deno_fs::write_file_sync`, modelled as a map update
(the write itself succeeding; directory creation is implicit in the map
model). -/
def fsWrite (fs : FS) (p c : String) : FS :=
  fun q => if q = p then .found c else fs q

/-- The network: what `net::fetch_sync_string` returns for each URI. -/
abbrev Net := Uri → Except DenoError String

/-- Result of a fallible operation: a value returned, an error returned
to the caller, or a `panic!`/failed `assert!`/`unwrap` (process abort). -/
inductive Outcome (ε α : Type) where
  | ok (val : α)
  | err (e : ε)
  | panic (msg : String)
deriving DecidableEq, Repr

/-- Does the outcome return an error to the caller? -/
def Outcome.isErr {ε α : Type} : Outcome ε α → Bool
  | .err _ => true
  | _ => false

/-- Panic message of a failed `Option::unwrap`. -/
def unwrapMsg : String := "called Option::unwrap() on a None value"

/-- Panic message of the unreachable remote branch of `get_source_code`. -/
def urlPanicMsg : String := "Remote code execution require an URL"

/-- Panic message of the reserved-asset branch of `get_source_code`. -/
def assetMsg : String := "Asset resolution should be done in JS, not Rust."

/-- Message of the local-path equality `assert!` in `get_source_code`. -/
def assertMsg : String := "if a module isn\x27t remote, it should have the same filename"

/-! ## The `DenoDir` operations -/

/-- The `DenoDir` directory layout and reload flag. -/
structure DenoDir where
  root : String
  gen : String
  deps : String
  reload : Bool
deriving DecidableEq, Repr

/-- `ASSET_PREFIX` from `deno_dir.rs`. -/
def ASSET_PREFIX : String := "/$asset$/"

/-- `DenoDir::cache_path`: `gen` joined with the hash key plus `".js"`. -/
def cache_path (d : DenoDir) (filename source_code : String) : String :=
  pushPath d.gen ⟨(source_code_hash filename source_code).data ++ ['.', 'j', 's']⟩

/-- `DenoDir::load_cache`: read the compile-cache slot. -/
def load_cache (d : DenoDir) (fs : FS) (filename source_code : String) :
    Except ErrKind String :=
  readToString fs (cache_path d filename source_code)

/-- `DenoDir::code_cache`: write the compiled output to the cache slot
unless the slot already exists, in which case nothing is written. -/
def code_cache (d : DenoDir) (fs : FS)
    (filename source_code output_code : String) : FS × Except ErrKind Unit :=
  let cp := cache_path d filename source_code
  if fileExists fs cp then (fs, .ok ())
  else (fsWrite fs cp output_code, .ok ())

/-- `DenoDir::fetch_remote_source`: with the reload flag set or no mirror
file present, fetch over the network and persist the result; otherwise
read the mirror file. -/
def fetch_remote_source (d : DenoDir) (fs : FS) (net : Net)
    (module_name : Uri) (filename : String) : Outcome DenoError (FS × String) :=
  if d.reload || !fileExists fs filename then
    match net module_name with
    | .error e => .err e
    | .ok source => .ok (fsWrite fs filename source, source)
  else
    match readToString fs filename with
    | .ok source => .ok (fs, source)
    | .error k => .err (.ioErr k)

/-- Modelled from the spec: the repository's `deno_fs::normalize_path`
helper is not under `src/`; the spec's resolution pipeline (§4.2–§4.3)
performs no path rewriting at this step on POSIX systems (the helper only
rewrites Windows `\` separators), so it is modelled as the identity. -/
def normalize_path (p : String) : String := p

/-- `is_remote` from `deno_dir.rs`: URLs with scheme `http` or `https`. -/
def is_remote (module_name : ModuleLocation) : Bool :=
  match module_name with
  | .Url u => u.scheme == "http" || u.scheme == "https"
  | .Path _ => false

/-- `DenoDir::get_source_code`: remote locations are fetched; a location
whose text begins with `ASSET_PREFIX` panics; otherwise the location text
must equal the filename (`assert!`) and the file is read. -/
def get_source_code (d : DenoDir) (fs : FS) (net : Net)
    (module_name : ModuleLocation) (filename : String) :
    Outcome DenoError (FS × String) :=
  if is_remote module_name then
    match module_name with
    | .Url url => fetch_remote_source d fs net url (normalize_path filename)
    | .Path _ => .panic urlPanicMsg
  else if strHasPre module_name.toStr ASSET_PREFIX then
    .panic assetMsg
  else if module_name.toStr = filename then
    match readToString fs filename with
    | .ok src => .ok (fs, src)
    | .error k => .err (.ioErr k)
  else .panic assertMsg

/-- `get_cache_filename`: deps directory, then the URI host (no port),
then the URI path with its leading slash stripped. -/
def get_cache_filename (basedir : String) (url : Uri) : String :=
  pushPath (pushPath basedir url.host) ⟨(Uri.path url).data.drop 1⟩

/-- `DenoDir::resolve_module`: a specifier parsing as a URI with a scheme
becomes a `Url` location mirrored under deps; an absolute path becomes a
`Path` location as-is; a relative path is joined onto the containing
file's directory (the containing file itself when it ends in a slash,
else its parent, whose absence makes the `unwrap` panic). -/
def resolve_module (d : DenoDir) (module_specifier containing_file : String) :
    Outcome DenoError (ModuleLocation × String) :=
  match parseUri module_specifier with
  | some uri => .ok (.Url uri, get_cache_filename d.deps uri)
  | none =>
    let module_path := componentsAsPath module_specifier
    if isAbsolutePath module_path then .ok (.Path module_path, module_path)
    else
      match (if containing_file.data.getLast? == some '/' then
               some containing_file
             else parentPath containing_file) with
      | none => .panic unwrapMsg
      | some parentDir =>
        let path := pushPath parentDir module_specifier
        .ok (.Path path, path)

/-- `CodeFetchOutput` from `deno_dir.rs`. -/
structure CodeFetchOutput where
  module_name : String
  filename : String
  source_code : String
  maybe_output_code : Option String
deriving DecidableEq, Repr

/-- `DenoDir::code_fetch`: resolve, obtain the source, then consult the
compile cache; a `NotFound` cache lookup leaves the output code unset,
any other lookup failure is returned as an error. -/
def code_fetch (d : DenoDir) (fs : FS) (net : Net)
    (module_specifier containing_file : String) :
    Outcome DenoError (FS × CodeFetchOutput) :=
  match resolve_module d module_specifier containing_file with
  | .err e => .err e
  | .panic m => .panic m
  | .ok (module_name, filepath) =>
    let filename := filepath
    match get_source_code d fs net module_name filepath with
    | .err e => .err e
    | .panic m => .panic m
    | .ok (fs2, source_code) =>
      match load_cache d fs2 filename source_code with
      | .error .notFound =>
        .ok (fs2, ⟨module_name.toStr, filename, source_code, none⟩)
      | .error .otherKind => .err (.ioErr .otherKind)
      | .ok output_code =>
        .ok (fs2, ⟨module_name.toStr, filename, source_code, some output_code⟩)

/-- A concrete directory layout used by the concrete-input theorems. -/
def sampleDir : DenoDir :=
  { root := "/home/u/.deno"
    gen := "/home/u/.deno/gen"
    deps := "/home/u/.deno/deps"
    reload := false }

/-- A directory layout with the reload flag set. -/
def reloadDir : DenoDir := { sampleDir with reload := true }

/-- The empty filesystem. -/
def emptyFS : FS := fun _ => FileRes.absent

/-- A filesystem holding one local module file. -/
def sampleFS : FS :=
  fun p => if p = "/m.ts" then FileRes.found ("1+2") else FileRes.absent

/-- A network on which every fetch fails. -/
def failNet : Net := fun _ => Except.error DenoError.fetchErr

/-- A network on which every fetch returns fresh content. -/
def okNet : Net := fun _ => Except.ok ("fetched")

/-- The deps-mirror path of `sampleUrl` under `sampleDir`. -/
def mirrorPath : String := "/home/u/.deno/deps/host/x"

/-- A filesystem holding a stale mirror copy of `sampleUrl`. -/
def mirrorFS : FS :=
  fun p => if p = mirrorPath then FileRes.found ("old") else FileRes.absent

/-- A remote http URL used by the concrete-input theorems. -/
def sampleUrl : Uri := ⟨"http", "host", none, "/x"⟩

/-- The sixteen lowercase hexadecimal digits. -/
def hexAlphabet : List Char := "0123456789abcdef".data

/-! ## Helper lemmas: the hash function -/

set_option maxRecDepth 100000

theorem wordBytes_lt (w : Nat) : ∀ b ∈ wordBytes w, b < 256 := by
  intro b hb
  simp only [wordBytes, List.mem_cons, List.not_mem_nil, or_false] at hb
  rcases hb with h | h | h | h <;> subst h <;> exact Nat.mod_lt _ (by norm_num)

theorem sha1_length (msg : List Nat) : (sha1 msg).length = 20 := by
  simp [sha1, wordBytes]

theorem sha1_lt (msg : List Nat) : ∀ b ∈ sha1 msg, b < 256 := by
  intro b hb
  simp only [sha1, List.mem_append] at hb
  rcases hb with (((h | h) | h) | h) | h <;> exact wordBytes_lt _ _ h

theorem hexChar_mem (n : Nat) (h : n < 16) :
    hexAlphabet.contains (hexChar n) = true := by
  interval_cases n <;> decide

theorem byteHexChars_length (b : Nat) : (byteHexChars b).length = 2 := rfl

theorem byteHexChars_mem (b : Nat) (hb : b < 256) :
    ∀ c ∈ byteHexChars b, hexAlphabet.contains c = true := by
  intro c hc
  simp only [byteHexChars, List.mem_cons, List.not_mem_nil, or_false] at hc
  rcases hc with h | h <;> subst h
  · exact hexChar_mem _ (Nat.div_lt_of_lt_mul (by omega))
  · exact hexChar_mem _ (Nat.mod_lt _ (by norm_num))

theorem hexOfBytes_length (bs : List Nat) :
    (bs.flatMap byteHexChars).length = 2 * bs.length := by
  induction bs with
  | nil => rfl
  | cons b bs ih => simp [List.flatMap_cons, byteHexChars, ih]; ring

theorem hexOfBytes_mem (bs : List Nat) (h : ∀ b ∈ bs, b < 256) :
    ∀ c ∈ bs.flatMap byteHexChars, hexAlphabet.contains c = true := by
  induction bs with
  | nil => intro c hc; simp at hc
  | cons b bs ih =>
    intro c hc
    simp only [List.flatMap_cons, List.mem_append] at hc
    rcases hc with hc | hc
    · exact byteHexChars_mem b (h b (by simp)) c hc
    · exact ih (fun x hx => h x (by simp [hx])) c hc

/-! ## Helper lemmas: splitting and joining paths -/

theorem splitSlash_ne_nil (l : List Char) : splitSlash l ≠ [] := by
  induction l with
  | nil => simp [splitSlash]
  | cons c cs ih =>
    unfold splitSlash
    cases h : splitSlash cs with
    | nil => simp
    | cons p ps => dsimp; split <;> simp

theorem splitSlash_no_slash (l : List Char) : ∀ p ∈ splitSlash l, '/' ∉ p := by
  induction l with
  | nil => intro p hp; simp [splitSlash] at hp; simp [hp]
  | cons c cs ih =>
    intro p hp
    unfold splitSlash at hp
    cases h : splitSlash cs with
    | nil => exact absurd h (splitSlash_ne_nil cs)
    | cons q qs =>
      rw [h] at hp
      dsimp at hp
      by_cases hc : c = '/'
      · rw [if_pos hc] at hp
        rcases List.mem_cons.mp hp with h1 | h1
        · simp [h1]
        · exact ih p (h ▸ h1)
      · rw [if_neg hc] at hp
        rcases List.mem_cons.mp hp with h1 | h1
        · subst h1
          intro hmem
          rcases List.mem_cons.mp hmem with h2 | h2
          · exact hc h2.symm
          · exact ih q (by rw [h]; exact List.mem_cons_self q qs) h2
        · exact ih p (by rw [h]; exact List.mem_cons_of_mem q h1)

theorem splitSlash_append (p l q : List Char) (qs : List (List Char))
    (hp : ∀ c ∈ p, c ≠ '/') (h : splitSlash l = q :: qs) :
    splitSlash (p ++ l) = (p ++ q) :: qs := by
  induction p with
  | nil => simpa using h
  | cons c cs ih =>
    have hc : c ≠ '/' := hp c (by simp)
    have step : splitSlash (cs ++ l) = (cs ++ q) :: qs :=
      ih (fun x hx => hp x (by simp [hx]))
    show splitSlash (c :: (cs ++ l)) = _
    unfold splitSlash
    rw [step]
    simp [hc]

theorem splitSlash_joinSlash (ps : List (List Char)) (h : ps ≠ [])
    (hp : ∀ p ∈ ps, ∀ c ∈ p, c ≠ '/') :
    splitSlash (joinSlash ps) = ps := by
  induction ps with
  | nil => exact absurd rfl h
  | cons p ps ih =>
    cases ps with
    | nil =>
      have : splitSlash (p ++ ([] : List Char)) = (p ++ []) :: [] :=
        splitSlash_append p [] [] [] (hp p (by simp)) rfl
      simpa [joinSlash] using this
    | cons q qs =>
      have ihr : splitSlash (joinSlash (q :: qs)) = q :: qs :=
        ih (by simp) (fun r hr => hp r (List.mem_cons_of_mem p hr))
      have step : splitSlash ('/' :: joinSlash (q :: qs)) = [] :: q :: qs := by
        unfold splitSlash
        rw [ihr]
        simp
      have final : splitSlash (p ++ '/' :: joinSlash (q :: qs))
          = (p ++ []) :: q :: qs :=
        splitSlash_append p _ [] (q :: qs) (hp p (by simp)) step
      have hjoin : joinSlash (p :: q :: qs) = p ++ '/' :: joinSlash (q :: qs) := rfl
      rw [hjoin, final]
      simp

theorem joinSlash_head (p : List Char) (ps : List (List Char)) (hne : p ≠ []) :
    (joinSlash (p :: ps)).head? = p.head? := by
  cases ps with
  | nil => rfl
  | cons q qs =>
    have : joinSlash (p :: q :: qs) = p ++ '/' :: joinSlash (q :: qs) := rfl
    rw [this]
    cases p with
    | nil => exact absurd rfl hne
    | cons a as => rfl

theorem dropTrailingDots_filter (l : List (List Char)) :
    (dropTrailingDots l).filter (fun p => !p.isEmpty && p != ['.'])
      = l.filter (fun p => !p.isEmpty && p != ['.']) := by
  induction l with
  | nil => rfl
  | cons p ps ih =>
    unfold dropTrailingDots
    cases hd : dropTrailingDots ps with
    | nil =>
      rw [hd] at ih
      by_cases hp : (p.isEmpty || p == ['.']) = true
      · rw [if_pos hp]
        have hpred : (!p.isEmpty && p != ['.']) = false := by
          cases hpe : p.isEmpty <;> cases hpd : p == ['.'] <;> simp_all [bne]
        simp [List.filter_cons, hpred, ← ih]
      · rw [if_neg hp]
        have hpred : (!p.isEmpty && p != ['.']) = true := by
          rw [Bool.or_eq_true] at hp
          push_neg at hp
          cases hpe : p.isEmpty <;> cases hpd : p == ['.'] <;> simp_all [bne]
        simp [List.filter_cons, hpred, ← ih]
    | cons q qs =>
      rw [hd] at ih
      simp [List.filter_cons, ih]

theorem dropTrailingDots_sub (l : List (List Char)) :
    ∀ p ∈ dropTrailingDots l, p ∈ l := by
  induction l with
  | nil => intro p hp; simp [dropTrailingDots] at hp
  | cons p ps ih =>
    intro x hx
    have heq : dropTrailingDots (p :: ps)
        = match dropTrailingDots ps with
          | [] => if p.isEmpty || p == ['.'] then [] else [p]
          | q :: qs => p :: q :: qs := rfl
    rw [heq] at hx
    cases hd : dropTrailingDots ps with
    | nil =>
      rw [hd] at hx
      dsimp only at hx
      by_cases hp2 : (p.isEmpty || p == ['.']) = true
      · rw [if_pos hp2] at hx
        simp at hx
      · rw [if_neg hp2] at hx
        rw [List.mem_singleton] at hx
        simp [hx]
    | cons q qs =>
      rw [hd] at hx
      dsimp only at hx
      rcases List.mem_cons.mp hx with h1 | h1
      · simp [h1]
      · right
        exact ih x (by rw [hd]; exact h1)

theorem dropTrailingDots_head (p : List Char) (ps : List (List Char)) :
    dropTrailingDots (p :: ps) = [] ∨
    ∃ qs, dropTrailingDots (p :: ps) = p :: qs := by
  have heq : dropTrailingDots (p :: ps)
      = match dropTrailingDots ps with
        | [] => if p.isEmpty || p == ['.'] then [] else [p]
        | q :: qs => p :: q :: qs := rfl
  cases hd : dropTrailingDots ps with
  | nil =>
    rw [hd] at heq
    dsimp only at heq
    by_cases hp2 : (p.isEmpty || p == ['.']) = true
    · left
      rw [heq, if_pos hp2]
    · right
      exact ⟨[], by rw [heq, if_neg hp2]⟩
  | cons q qs =>
    rw [hd] at heq
    dsimp only at heq
    right
    exact ⟨q :: qs, heq⟩

theorem splitSlash_head_cons (c : Char) (cs : List Char) (hc : c ≠ '/') :
    ∃ p ps, splitSlash (c :: cs) = (c :: p) :: ps := by
  cases hs : splitSlash cs with
  | nil => exact absurd hs (splitSlash_ne_nil cs)
  | cons p ps =>
    refine ⟨p, ps, ?_⟩
    unfold splitSlash
    rw [hs]
    dsimp only
    rw [if_neg hc]

theorem splitSlash_slash_cons (l : List Char) :
    splitSlash ('/' :: l) = [] :: splitSlash l := by
  cases hx : splitSlash l with
  | nil => exact absurd hx (splitSlash_ne_nil l)
  | cons a b =>
    unfold splitSlash
    rw [hx]
    simp

theorem componentsAsPath_root (s : String) (h : s.data.head? = some '/') :
    (componentsAsPath s).data
      = '/' :: joinSlash (dropTrailingDots (splitSlash (s.data.drop 1))) := by
  cases hcs : s.data with
  | nil => rw [hcs] at h; cases h
  | cons c rest =>
    rw [hcs] at h
    injection h with h2
    subst h2
    unfold componentsAsPath
    rw [hcs]
    dsimp only
    rw [if_pos rfl]
    rfl

theorem isAbsolutePath_componentsAsPath (s : String)
    (h : isAbsolutePath s = true) :
    isAbsolutePath (componentsAsPath s) = true := by
  have hh : s.data.head? = some '/' := by
    unfold isAbsolutePath at h
    exact beq_iff_eq.mp h
  unfold isAbsolutePath
  rw [componentsAsPath_root s hh]
  rfl

theorem head_slash_of_componentsAsPath (s : String)
    (h : (componentsAsPath s).data.head? = some '/') :
    s.data.head? = some '/' := by
  cases hcs : s.data with
  | nil =>
    exfalso
    unfold componentsAsPath at h
    rw [hcs] at h
    dsimp only at h
    cases h
  | cons c rest =>
    by_cases hc : c = '/'
    · rw [hc]
      rfl
    · exfalso
      unfold componentsAsPath at h
      rw [hcs] at h
      dsimp only at h
      rw [if_neg hc] at h
      by_cases hcd : (c = '.' && (rest.isEmpty || rest.head? == some '/')) = true
      · rw [if_pos hcd] at h
        dsimp only at h
        injection h with h2
        exact absurd h2 (by decide)
      · rw [if_neg hcd] at h
        dsimp only at h
        obtain ⟨p0, ps0, hsp⟩ := splitSlash_head_cons c rest hc
        rw [hsp] at h
        rcases dropTrailingDots_head (c :: p0) ps0 with h1 | ⟨qs2, h1⟩
        · rw [h1] at h
          cases h
        · rw [h1] at h
          rw [joinSlash_head _ _ (by simp)] at h
          dsimp only [List.head?] at h
          injection h with h2
          exact hc h2

theorem pathComps_componentsAsPath_root (s : String)
    (h : s.data.head? = some '/') :
    pathComps (componentsAsPath s) = pathComps s := by
  obtain ⟨rest, hcs⟩ : ∃ rest, s.data = '/' :: rest := by
    cases hc : s.data with
    | nil => rw [hc] at h; cases h
    | cons c cs2 =>
      rw [hc] at h
      injection h with h2
      exact ⟨cs2, by rw [h2]⟩
  have hroot := componentsAsPath_root s h
  rw [hcs] at hroot
  dsimp only [List.drop] at hroot
  unfold pathComps
  rw [hroot, hcs]
  dsimp only
  cases hsegs : dropTrailingDots (splitSlash rest) with
  | nil =>
    have hfil : (splitSlash rest).filter (fun p => !p.isEmpty && p != ['.'])
        = [] := by
      rw [← dropTrailingDots_filter, hsegs]
      rfl
    rw [splitSlash_slash_cons rest]
    have hfil2 : (([] : List Char) :: splitSlash rest).filter
        (fun p => !p.isEmpty && p != ['.']) = [] := by
      rw [List.filter_cons]
      simp [hfil]
    rw [hfil2]
    rfl
  | cons q qs =>
    have hnos : ∀ p ∈ q :: qs, ∀ c ∈ p, c ≠ '/' := by
      intro p hp c hc heq
      have hmem : p ∈ splitSlash rest :=
        dropTrailingDots_sub (splitSlash rest) p (by rw [hsegs]; exact hp)
      have := splitSlash_no_slash rest p hmem
      exact this (heq ▸ hc)
    have hrt : splitSlash (joinSlash (q :: qs)) = q :: qs :=
      splitSlash_joinSlash _ (by simp) hnos
    have hsp1 : splitSlash ('/' :: joinSlash (q :: qs))
        = [] :: q :: qs := by
      unfold splitSlash
      rw [hrt]
      simp
    rw [hsp1, splitSlash_slash_cons rest]
    have hfil : (q :: qs).filter (fun p => !p.isEmpty && p != ['.'])
        = (splitSlash rest).filter (fun p => !p.isEmpty && p != ['.']) := by
      rw [← hsegs, dropTrailingDots_filter]
    have hfil2 : (([] : List Char) :: splitSlash rest).filter
        (fun p => !p.isEmpty && p != ['.'])
        = ([] :: q :: qs).filter (fun p => !p.isEmpty && p != ['.']) := by
      rw [List.filter_cons, List.filter_cons]
      simp [hfil]
    rw [hfil2]
    rfl

/-! ## Helper lemmas: prefixes, schemes and URI parsing -/

theorem hasPre_head (a : Char) (pre l : List Char) (h : hasPre (a :: pre) l = true) :
    l.head? = some a := by
  cases l with
  | nil => simp [hasPre] at h
  | cons b bs =>
    unfold hasPre at h
    rw [Bool.and_eq_true] at h
    rw [show a = b from beq_iff_eq.mp h.1]
    rfl

theorem splitScheme_shape (l sch rest : List Char)
    (h : splitScheme l = some (sch, rest)) :
    (sch = [] ∧ l.head? = some ':') ∨
    (∃ c cs, sch = c :: cs ∧ l.head? = some c) := by
  induction l generalizing sch rest with
  | nil => simp [splitScheme] at h
  | cons c cs ih =>
    unfold splitScheme at h
    by_cases hc : (c = ':' && hasPre ['/', '/'] cs) = true
    · rw [if_pos hc] at h
      injection h with h2
      rw [Prod.mk.injEq] at h2
      left
      refine ⟨h2.1.symm, ?_⟩
      rw [Bool.and_eq_true] at hc
      rw [show c = ':' from of_decide_eq_true hc.1]
      rfl
    · rw [if_neg hc] at h
      rw [Option.map_eq_some'] at h
      obtain ⟨⟨a, b⟩, _h1, h2⟩ := h
      rw [Prod.mk.injEq] at h2
      right
      exact ⟨c, a, h2.1.symm, rfl⟩

theorem schemeOk_head (l : List Char) (h : schemeOk l = true) :
    ∃ c cs, l = c :: cs ∧ c.isAlpha = true := by
  cases l with
  | nil => simp [schemeOk] at h
  | cons c cs =>
    unfold schemeOk at h
    rw [Bool.and_eq_true] at h
    exact ⟨c, cs, rfl, h.1⟩

theorem hostOk_fields (l : List Char) (h : hostOk l = true) :
    l ≠ [] ∧ '/' ∉ l := by
  unfold hostOk at h
  rw [Bool.and_eq_true] at h
  obtain ⟨h1, h2⟩ := h
  constructor
  · intro he; subst he; simp at h1
  · intro hmem
    rw [List.all_eq_true] at h2
    have := h2 '/' hmem
    simp at this

theorem mkUri_none (sch host portPart pathRaw : List Char)
    (h : schemeOk sch = false) : mkUri sch host portPart pathRaw = none := by
  unfold mkUri
  rw [h]
  rfl

theorem mkUri_fields (sch host portPart pathRaw : List Char) (u : Uri)
    (h : mkUri sch host portPart pathRaw = some u) :
    u.scheme.data = sch ∧ u.host.data = host ∧ u.pathRaw.data = pathRaw ∧
    schemeOk sch = true ∧ hostOk host = true ∧ pathRawOk pathRaw = true := by
  unfold mkUri at h
  split at h
  case isTrue hcond =>
    simp only [Bool.and_eq_true] at hcond
    obtain ⟨⟨h1, h2⟩, h3⟩ := hcond
    cases portPart with
    | nil =>
      injection h with h4
      subst h4
      exact ⟨rfl, rfl, rfl, h1, h2, h3⟩
    | cons c0 pd =>
      dsimp only at h
      split at h
      case isTrue hdig =>
        injection h with h4
        subst h4
        exact ⟨rfl, rfl, rfl, h1, h2, h3⟩
      case isFalse => cases h
  case isFalse => cases h

theorem parseUri_none_of_head_slash (s : String) (h : s.data.head? = some '/') :
    parseUri s = none := by
  unfold parseUri
  cases hsp : splitScheme s.data with
  | none => rfl
  | some pr =>
    obtain ⟨sch, rest⟩ := pr
    rcases splitScheme_shape s.data sch rest hsp with ⟨_, h2⟩ | ⟨c, cs, h1, h2⟩
    · rw [h] at h2; cases h2
    · rw [h] at h2
      injection h2 with h3
      subst h3
      have hns : schemeOk sch = false := by
        rw [h1]
        unfold schemeOk
        rw [Bool.and_eq_false_iff]
        left
        decide
      dsimp only
      exact mkUri_none _ _ _ _ hns

theorem parseUri_fields (s : String) (u : Uri) (h : parseUri s = some u) :
    schemeOk u.scheme.data = true ∧ hostOk u.host.data = true ∧
    pathRawOk u.pathRaw.data = true := by
  unfold parseUri at h
  cases hsp : splitScheme s.data with
  | none => rw [hsp] at h; cases h
  | some pr =>
    obtain ⟨sch, rest⟩ := pr
    rw [hsp] at h
    dsimp only at h
    obtain ⟨h1, h2, h3, h4, h5, h6⟩ := mkUri_fields _ _ _ _ _ h
    rw [h1, h2, h3]
    exact ⟨h4, h5, h6⟩

theorem pushPath_head (base p : String) (h : base.data.head? = some '/') :
    (pushPath base p).data.head? = some '/' := by
  unfold pushPath
  split
  case isTrue habs => exact habs
  case isFalse =>
    split
    case isTrue hemp =>
      exfalso
      rw [List.isEmpty_iff] at hemp
      rw [hemp] at h
      cases h
    case isFalse =>
      cases hb : base.data with
      | nil => rw [hb] at h; cases h
      | cons a as =>
        rw [hb] at h
        injection h with h2
        subst h2
        split <;> simp [hb]

theorem uriToStr_head (u : Uri) (c : Char) (cs : List Char)
    (h : u.scheme.data = c :: cs) : (uriToStr u).data.head? = some c := by
  unfold uriToStr
  dsimp only
  rw [h]
  rfl

/-! ## Helper lemmas: `resolve_module` -/

theorem resolve_module_url (d : DenoDir) (spec cf : String) (u : Uri)
    (h : parseUri spec = some u) :
    resolve_module d spec cf = .ok (.Url u, get_cache_filename d.deps u) := by
  unfold resolve_module
  rw [h]

theorem resolve_module_abs (d : DenoDir) (spec cf : String)
    (h : isAbsolutePath spec = true) :
    resolve_module d spec cf
      = .ok (.Path (componentsAsPath spec), componentsAsPath spec) := by
  have hh : spec.data.head? = some '/' := by
    unfold isAbsolutePath at h
    exact beq_iff_eq.mp h
  unfold resolve_module
  rw [parseUri_none_of_head_slash spec hh]
  dsimp only
  rw [if_pos (isAbsolutePath_componentsAsPath spec h)]

theorem resolve_module_isErr_false (d : DenoDir) (spec cf : String) :
    (resolve_module d spec cf).isErr = false := by
  unfold resolve_module
  cases parseUri spec with
  | some u => rfl
  | none =>
    dsimp only
    split
    · rfl
    · split <;> rfl

/-! ## Claim theorems -/

/-- C4: `source_code_hash` is deterministic, produces a fixed-width (40
character) lowercase-hexadecimal key computed as a SHA-1 digest over the
filename bytes followed by the source bytes with no delimiter, and
matches the three reference values from the source's test suite. -/
theorem C4_hash_deterministic_and_reference :
    (∀ f s : String, source_code_hash f s = source_code_hash f s)
    ∧ (∀ f s : String,
        source_code_hash f s = bytesToHex (sha1 (strBytes f ++ strBytes s)))
    ∧ (∀ f s : String, (source_code_hash f s).length = 40)
    ∧ (∀ f s : String,
        (source_code_hash f s).data.all (fun c => hexAlphabet.contains c) = true)
    ∧ source_code_hash ("hello.ts") ("1+2")
        = "a3e29aece8d35a19bf9da2bb1c086af71fb36ed5"
    ∧ source_code_hash ("hello.ts") ("1")
        = "914352911fc9c85170908ede3df1128d690dda41"
    ∧ source_code_hash ("hi.ts") ("1+2")
        = "2e396bc66101ecc642db27507048376d972b1b70" := by
  refine ⟨fun f s => rfl, fun f s => rfl, ?_, ?_, by decide, by decide, by decide⟩
  · intro f s
    show ((sha1 (strBytes f ++ strBytes s)).flatMap byteHexChars).length = 40
    rw [hexOfBytes_length, sha1_length]
  · intro f s
    rw [List.all_eq_true]
    intro c hc
    exact hexOfBytes_mem _ (sha1_lt _) c hc

/-- C1 (amended): `resolve_module` never returns an error at all; against
a bare containing filename with no separators a relative specifier
silently succeeds (the parent is the empty path), against the filesystem
root it silently succeeds, and against an empty containing file the
`parent().unwrap()` panics (process abort) — no `ResolutionError` is
returned in any of these cases. -/
theorem C1_no_parent_never_error :
    (∀ (d : DenoDir) (spec cf : String), (resolve_module d spec cf).isErr = false)
    ∧ resolve_module sampleDir ("hello.ts") ("badfile.ts")
        = .ok (.Path ("hello.ts"), ("hello.ts"))
    ∧ resolve_module sampleDir ("hello.ts") ("/")
        = .ok (.Path ("/hello.ts"), ("/hello.ts"))
    ∧ resolve_module sampleDir ("hello.ts") ("") = .panic unwrapMsg :=
  ⟨resolve_module_isErr_false, by decide, by decide, by decide⟩

/-- C1 counterexample: resolving the relative specifier `hello.ts` against
the bare containing filename `badfile.ts` — a containing file with no
parent directory in the claim's sense — silently succeeds with a `Path`
location instead of failing with a `ResolutionError`. -/
theorem C1_counterexample :
    resolve_module sampleDir ("hello.ts") ("badfile.ts")
      = .ok (.Path ("hello.ts"), ("hello.ts"))
    ∧ (resolve_module sampleDir ("hello.ts") ("badfile.ts")).isErr = false := by
  decide

/-- C2 (amended): for every specifier parsing as a URI with a scheme, the
computed local mirror path is depsDir joined with the URI's host and then
the URI's path with its leading separator stripped, where the host
segment EXCLUDES the port; on the claim's example URL the port 4545 is
dropped from the mirror path. -/
theorem C2_remote_mirror_path (d : DenoDir) (spec cf : String) (u : Uri)
    (h : parseUri spec = some u) :
    resolve_module d spec cf
      = .ok (.Url u,
             pushPath (pushPath d.deps u.host) ⟨(Uri.path u).data.drop 1⟩)
    ∧ resolve_module sampleDir
        ("http://localhost:4545/testdata/subdir/print_hello.ts") ("/x.ts")
      = .ok (.Url ⟨"http", "localhost", some ("4545"),
                   "/testdata/subdir/print_hello.ts"⟩,
             ("/home/u/.deno/deps/localhost/testdata/subdir/print_hello.ts")) :=
  ⟨resolve_module_url d spec cf u h, by decide⟩

/-- C2 witness: the amended statement at the claim's example URL. -/
theorem C2_remote_mirror_path_witness :
    parseUri ("http://localhost:4545/testdata/subdir/print_hello.ts")
      = some ⟨"http", "localhost", some ("4545"),
              "/testdata/subdir/print_hello.ts"⟩
    ∧ resolve_module sampleDir
        ("http://localhost:4545/testdata/subdir/print_hello.ts") ("/x.ts")
      = .ok (.Url ⟨"http", "localhost", some ("4545"),
                   "/testdata/subdir/print_hello.ts"⟩,
             ("/home/u/.deno/deps/localhost/testdata/subdir/print_hello.ts")) :=
  ⟨by decide,
   (C2_remote_mirror_path sampleDir
     ("http://localhost:4545/testdata/subdir/print_hello.ts") ("/x.ts")
     ⟨"http", "localhost", some ("4545"), "/testdata/subdir/print_hello.ts"⟩
     (by decide)).2⟩

/-- C2 counterexample: on the claim's own example the computed mirror path
is deps/localhost/… (port dropped), which differs from the claimed
deps/localhost:4545/… (host segment including the port). -/
theorem C2_counterexample :
    resolve_module sampleDir
        ("http://localhost:4545/testdata/subdir/print_hello.ts") ("/x.ts")
      = .ok (.Url ⟨"http", "localhost", some ("4545"),
                   "/testdata/subdir/print_hello.ts"⟩,
             ("/home/u/.deno/deps/localhost/testdata/subdir/print_hello.ts"))
    ∧ ("/home/u/.deno/deps/localhost/testdata/subdir/print_hello.ts" : String)
        ≠ ("/home/u/.deno/deps/localhost:4545/testdata/subdir/print_hello.ts") := by
  decide

/-- C8: resolving an absolute local specifier is context-independent: for
every containing file the result is a `Path` location whose path is also
the returned local path, equal to the specifier itself (equal as Rust
paths — component-wise, the equality `PathBuf` implements — and textually
identical whenever the specifier carries no trailing separator or `.`
component, as in the claim's example). -/
theorem C8_absolute_context_independent (d : DenoDir) (spec cf cf2 : String)
    (habs : isAbsolutePath spec = true) :
    resolve_module d spec cf
      = .ok (.Path (componentsAsPath spec), componentsAsPath spec)
    ∧ pathEq (componentsAsPath spec) spec
    ∧ (componentsAsPath spec = spec →
        resolve_module d spec cf = .ok (.Path spec, spec))
    ∧ resolve_module d spec cf = resolve_module d spec cf2 := by
  have hh : spec.data.head? = some '/' := by
    unfold isAbsolutePath at habs
    exact beq_iff_eq.mp habs
  refine ⟨resolve_module_abs d spec cf habs,
    pathComps_componentsAsPath_root spec hh, ?_, ?_⟩
  · intro hn
    rw [resolve_module_abs d spec cf habs, hn]
  · rw [resolve_module_abs d spec cf habs, resolve_module_abs d spec cf2 habs]

/-- C8 witness: the claim's example, against two containing files. -/
theorem C8_absolute_context_independent_witness :
    isAbsolutePath ("/this/module/got/imported.js") = true
    ∧ resolve_module sampleDir ("/this/module/got/imported.js")
        ("/that/module/did/it.js")
      = .ok (.Path ("/this/module/got/imported.js"),
             ("/this/module/got/imported.js")) :=
  ⟨by decide,
   (C8_absolute_context_independent sampleDir ("/this/module/got/imported.js")
      ("/that/module/did/it.js") (".") (by decide)).2.2.1 (by decide)⟩

theorem get_source_code_path_eq_no_assert (d : DenoDir) (fs : FS) (net : Net)
    (f : String) :
    get_source_code d fs net (.Path f) f ≠ .panic assertMsg := by
  unfold get_source_code
  rw [if_neg (c := is_remote (ModuleLocation.Path f) = true)
      (by intro hc; cases hc)]
  by_cases hasset :
      strHasPre (ModuleLocation.toStr (.Path f)) ASSET_PREFIX = true
  · rw [if_pos hasset]
    intro heq
    injection heq with hm
    exact absurd hm (by decide)
  · rw [if_neg hasset]
    rw [if_pos (show ModuleLocation.toStr (.Path f) = f from rfl)]
    split <;> intro heq <;> cases heq

/-- C9: whenever resolution succeeds with a local (non-remote) location,
the location's path is textually identical to the returned local path, so
the equality assertion inside `get_source_code` holds and its failure
branch is unreachable for locations produced by `resolve_module`. -/
theorem C9_local_assert_holds (d : DenoDir) (spec cf p f : String)
    (h : resolve_module d spec cf = .ok (.Path p, f)) :
    p = f
    ∧ ModuleLocation.toStr (.Path p) = f
    ∧ ∀ (fs : FS) (net : Net),
        get_source_code d fs net (.Path p) f ≠ .panic assertMsg := by
  have hpf : p = f := by
    unfold resolve_module at h
    cases hp : parseUri spec with
    | some u => rw [hp] at h; simp at h
    | none =>
      rw [hp] at h
      dsimp only at h
      split at h
      · simp only [Outcome.ok.injEq, Prod.mk.injEq,
          ModuleLocation.Path.injEq] at h
        rw [← h.1, ← h.2]
      · split at h
        · cases h
        · simp only [Outcome.ok.injEq, Prod.mk.injEq,
            ModuleLocation.Path.injEq] at h
          rw [← h.1, ← h.2]
  subst hpf
  exact ⟨rfl, rfl, fun fs net => get_source_code_path_eq_no_assert d fs net p⟩

/-- C9 witness: a concrete successful local resolution. -/
theorem C9_local_assert_holds_witness :
    resolve_module sampleDir ("/m.ts") ("/c.ts")
      = .ok (.Path ("/m.ts"), ("/m.ts"))
    ∧ ModuleLocation.toStr (.Path ("/m.ts")) = "/m.ts" :=
  ⟨by decide,
   (C9_local_assert_holds sampleDir ("/m.ts") ("/c.ts") ("/m.ts") ("/m.ts")
      (by decide)).2.1⟩

/-- C3 (amended): a specifier whose location text — the specifier after
`components().as_path()`, which only trims trailing empty and `.`
components and keeps the leading text verbatim — begins with the reserved
prefix `/$asset$/` (in particular any `/$asset$/<name>` specifier) makes
`code_fetch` abort the process with the asset panic rather than return a
`ReservedLocationError` to the caller; the outcome is the same for every
filesystem and network, so no filesystem access or network fetch is
attempted, and the subsystem never resolves such a specifier to
filesystem content.  (A specifier like `/$asset$/` with nothing real
after the prefix is trimmed to `/$asset$` and instead read as an ordinary
file; a specifier like `/./$asset$/x.ts` keeps its `/./` verbatim, fails
the prefix check, and is likewise read as an ordinary file.) -/
theorem C3_asset_specifier_panics (d : DenoDir) (fs : FS) (net : Net)
    (spec cf : String)
    (h : strHasPre (componentsAsPath spec) ASSET_PREFIX = true) :
    code_fetch d fs net spec cf = .panic assetMsg := by
  have hnp : (componentsAsPath spec).data.head? = some '/' := by
    unfold strHasPre at h
    exact hasPre_head '/' _ _
      (by rw [show ASSET_PREFIX.data = '/' :: ("$asset$/" : String).data
                from rfl] at h; exact h)
  have habs : isAbsolutePath spec = true := by
    unfold isAbsolutePath
    rw [head_slash_of_componentsAsPath spec hnp]
    rfl
  unfold code_fetch
  rw [resolve_module_abs d spec cf habs]
  dsimp only
  unfold get_source_code
  rw [if_neg (c := is_remote (ModuleLocation.Path (componentsAsPath spec)) = true)
      (by intro hc; cases hc)]
  rw [if_pos (show strHasPre
      (ModuleLocation.toStr (.Path (componentsAsPath spec))) ASSET_PREFIX = true
      from h)]

/-- C3 witness: the amended statement at a concrete asset specifier. -/
theorem C3_asset_specifier_panics_witness :
    strHasPre (componentsAsPath ("/$asset$/x.ts")) ASSET_PREFIX = true
    ∧ code_fetch sampleDir emptyFS failNet ("/$asset$/x.ts") ("/c.ts")
        = .panic assetMsg :=
  ⟨by decide,
   C3_asset_specifier_panics sampleDir emptyFS failNet ("/$asset$/x.ts")
     ("/c.ts") (by decide)⟩

/-- C3 counterexample: at a concrete asset specifier `code_fetch` panics
(process abort); it does not return a `ReservedLocationError` — or any
error — to the caller. -/
theorem C3_counterexample :
    code_fetch sampleDir emptyFS failNet ("/$asset$/x.ts") ("/c.ts")
      = .panic assetMsg
    ∧ (code_fetch sampleDir emptyFS failNet ("/$asset$/x.ts") ("/c.ts")).isErr
      = false := by
  constructor
  · rfl
  · rfl

theorem code_cache_second_noop (d : DenoDir) (fs : FS) (f s o : String) :
    (code_cache d (code_cache d fs f s o).1 f s o).1
      = (code_cache d fs f s o).1 := by
  unfold code_cache
  by_cases hex : fileExists fs (cache_path d f s) = true
  · rw [if_pos hex]
    dsimp only
    rw [if_pos hex]
  · rw [if_neg hex]
    dsimp only
    rw [if_pos (show fileExists (fsWrite fs (cache_path d f s) o)
        (cache_path d f s) = true by unfold fileExists fsWrite; rw [if_pos rfl])]

/-- C5: `code_cache` is idempotent — a second call with identical
arguments leaves the filesystem exactly as it was (the existing file is
never overwritten) — and when the slot at genDir/key + ".js" is absent, a
first call makes that slot hold exactly the output text. -/
theorem C5_store_idempotent (d : DenoDir) (fs : FS) (f s o : String)
    (h : fs (cache_path d f s) = .absent) :
    ((code_cache d fs f s o).1 (cache_path d f s) = .found o)
    ∧ ∀ fs2 : FS,
        (code_cache d (code_cache d fs2 f s o).1 f s o).1
          = (code_cache d fs2 f s o).1 := by
  refine ⟨?_, fun fs2 => code_cache_second_noop d fs2 f s o⟩
  unfold code_cache
  rw [if_neg (c := fileExists fs (cache_path d f s) = true)
      (by unfold fileExists; rw [h]; intro hc; cases hc)]
  dsimp only
  unfold fsWrite
  rw [if_pos rfl]

/-- C5 witness: a first store into an empty cache. -/
theorem C5_store_idempotent_witness :
    emptyFS (cache_path sampleDir ("hello.js") ("1+2")) = .absent
    ∧ ((code_cache sampleDir emptyFS ("hello.js") ("1+2") ("1+2out")).1
        (cache_path sampleDir ("hello.js") ("1+2")) = .found ("1+2out")) :=
  ⟨rfl,
   (C5_store_idempotent sampleDir emptyFS ("hello.js") ("1+2") ("1+2out")
     rfl).1⟩

/-- C7: with the reload flag set, a remote module is fetched over the
network and its result persisted to the mirror even when a mirror file
already exists; with the flag clear and the mirror present, the mirror's
contents are returned with the filesystem unchanged (no write), and this
holds for every network — the network is not contacted. -/
theorem C7_reload_policy (d : DenoDir) (fs : FS) (url : Uri)
    (fn c s : String) (hmirror : fs fn = .found c) :
    (∀ net : Net, d.reload = true → net url = .ok s →
      fetch_remote_source d fs net url fn = .ok (fsWrite fs fn s, s))
    ∧ (∀ net : Net, d.reload = false →
      fetch_remote_source d fs net url fn = .ok (fs, c)) := by
  have hex : fileExists fs fn = true := by unfold fileExists; rw [hmirror]
  constructor
  · intro net hrel hnet
    unfold fetch_remote_source
    rw [hrel, hnet]
    rfl
  · intro net hrel
    unfold fetch_remote_source
    rw [hrel, hex]
    rw [if_neg (by decide)]
    unfold readToString
    rw [hmirror]

/-- C7 witness: both halves at a concrete stale mirror. -/
theorem C7_reload_policy_witness :
    mirrorFS mirrorPath = .found ("old")
    ∧ fetch_remote_source reloadDir mirrorFS okNet sampleUrl mirrorPath
        = .ok (fsWrite mirrorFS mirrorPath ("fetched"), ("fetched"))
    ∧ fetch_remote_source sampleDir mirrorFS failNet sampleUrl mirrorPath
        = .ok (mirrorFS, ("old")) :=
  ⟨rfl,
   (C7_reload_policy reloadDir mirrorFS sampleUrl mirrorPath ("old")
     ("fetched") rfl).1 okNet rfl rfl,
   (C7_reload_policy sampleDir mirrorFS sampleUrl mirrorPath ("old")
     ("fetched") rfl).2 failNet rfl⟩

/-- C6: when resolution and source acquisition succeed, an absent
compile-cache slot is not an error — `code_fetch` returns success with
the compiled-output field unset — while a cache lookup failing with any
other I/O fault is propagated to the caller as an error. -/
theorem C6_cache_miss_transparent (d : DenoDir) (fs : FS) (net : Net)
    (spec cf : String) (mn : ModuleLocation) (fp : String) (fs2 : FS)
    (src : String)
    (h1 : resolve_module d spec cf = .ok (mn, fp))
    (h2 : get_source_code d fs net mn fp = .ok (fs2, src)) :
    (fs2 (cache_path d fp src) = .absent →
      code_fetch d fs net spec cf = .ok (fs2, ⟨mn.toStr, fp, src, none⟩))
    ∧ (fs2 (cache_path d fp src) = .faulty →
      code_fetch d fs net spec cf = .err (.ioErr .otherKind)) := by
  constructor <;>
    (intro h3
     unfold code_fetch
     rw [h1]
     dsimp only
     rw [h2]
     dsimp only
     unfold load_cache readToString
     rw [h3])

/-- C6 witness: fetching a present local module with an empty compile
cache yields success with no output code. -/
theorem C6_cache_miss_transparent_witness :
    resolve_module sampleDir ("/m.ts") ("/c.ts")
      = .ok (.Path ("/m.ts"), ("/m.ts"))
    ∧ sampleFS (cache_path sampleDir ("/m.ts") ("1+2")) = .absent
    ∧ code_fetch sampleDir sampleFS failNet ("/m.ts") ("/c.ts")
        = .ok (sampleFS, ⟨"/m.ts", "/m.ts", "1+2", none⟩) :=
  ⟨by decide, by decide,
   (C6_cache_miss_transparent sampleDir sampleFS failNet ("/m.ts") ("/c.ts")
      (.Path ("/m.ts")) ("/m.ts") sampleFS ("1+2") rfl rfl).1 (by decide)⟩

/-- C10: a specifier with an explicit scheme other than http or https
(such as ftp://host/x) is classified as a `Url` location by
`resolve_module`, yet `is_remote` is false for it, so `code_fetch` never
fetches it from the network: it falls into the non-remote branch, where
the assertion comparing the URL's string form with the deps mirror path
fails (a panic), identically for every filesystem and network (the deps
directory being an absolute path). -/
theorem C10_non_http_scheme_asserts (d : DenoDir) (fs : FS) (net : Net)
    (spec cf : String) (u : Uri)
    (hp : parseUri spec = some u)
    (h1 : u.scheme ≠ "http") (h2 : u.scheme ≠ "https")
    (hd : d.deps.data.head? = some '/') :
    is_remote (.Url u) = false
    ∧ resolve_module d spec cf = .ok (.Url u, get_cache_filename d.deps u)
    ∧ code_fetch d fs net spec cf = .panic assertMsg := by
  have hir : is_remote (ModuleLocation.Url u) = false := by
    unfold is_remote
    rw [Bool.or_eq_false_iff]
    constructor <;> rw [beq_eq_false_iff_ne] <;> assumption
  obtain ⟨hsch, hhost, hpathok⟩ := parseUri_fields spec u hp
  obtain ⟨c0, cs0, hc0, halpha⟩ := schemeOk_head _ hsch
  have hhd : (uriToStr u).data.head? = some c0 := uriToStr_head u c0 cs0 hc0
  have hc0slash : c0 ≠ '/' := by
    intro he
    rw [he] at halpha
    exact absurd halpha (by decide)
  have hmh : (get_cache_filename d.deps u).data.head? = some '/' := by
    unfold get_cache_filename
    exact pushPath_head _ _ (pushPath_head _ _ hd)
  have hne : ¬(ModuleLocation.toStr (.Url u) = get_cache_filename d.deps u) := by
    intro he
    have hx : (uriToStr u).data.head? = some '/' := by
      rw [show uriToStr u = get_cache_filename d.deps u from he]
      exact hmh
    rw [hhd] at hx
    injection hx with hx2
    exact hc0slash hx2
  have hassetf :
      ¬(strHasPre (ModuleLocation.toStr (.Url u)) ASSET_PREFIX = true) := by
    intro hpre
    have hpre2 : hasPre ('/' :: ("$asset$/" : String).data)
        ((uriToStr u).data) = true := by
      rw [show ('/' :: ("$asset$/" : String).data) = ASSET_PREFIX.data from rfl]
      exact hpre
    have hh := hasPre_head '/' _ _ hpre2
    rw [hhd] at hh
    injection hh with hx2
    exact hc0slash hx2
  refine ⟨hir, resolve_module_url d spec cf u hp, ?_⟩
  unfold code_fetch
  rw [resolve_module_url d spec cf u hp]
  dsimp only
  unfold get_source_code
  rw [if_neg (c := is_remote (ModuleLocation.Url u) = true)
      (by rw [hir]; intro hc; cases hc)]
  rw [if_neg hassetf]
  rw [if_neg hne]

/-- C10 witness: the ftp example. -/
theorem C10_non_http_scheme_asserts_witness :
    parseUri ("ftp://host/x") = some ⟨"ftp", "host", none, "/x"⟩
    ∧ is_remote (.Url ⟨"ftp", "host", none, "/x"⟩) = false
    ∧ code_fetch sampleDir emptyFS failNet ("ftp://host/x") ("/c.ts")
        = .panic assertMsg :=
  ⟨by decide,
   (C10_non_http_scheme_asserts sampleDir emptyFS failNet ("ftp://host/x")
      ("/c.ts") ⟨"ftp", "host", none, "/x"⟩ (by decide) (by decide) (by decide)
      (by decide)).1,
   (C10_non_http_scheme_asserts sampleDir emptyFS failNet ("ftp://host/x")
      ("/c.ts") ⟨"ftp", "host", none, "/x"⟩ (by decide) (by decide) (by decide)
      (by decide)).2.2⟩
